import Mathlib

/-!
Verification of the `img-dl` image downloader.

This file is a shallow embedding, in Lean 4, of the core of the `img-dl`
repository: the image parameter resolver (`parseImageParams` in
`src/downloader.ts`), the single-item downloader (`download` in
`src/downloader.ts`), the batch entry point (`imgdl` in `src/index.ts`)
and the CLI runner's error dispatch (`runner` in `src/cli.ts`).

Strings are modelled as `List Char` (`Str`): every JavaScript string
operation used by the source (template concatenation, `toLowerCase`,
`trim`, `String.prototype.replace` with the concrete regexes
`/ \((\d+)\)$/` and `/ \(\d+\)$/`, `parseInt`) is translated into an
executable Lean function over `List Char`.

Effectful parts are translated by explicit state passing:
  * the filesystem seen by `fs.existsSync` / `createWriteStream` /
    `fs.promises.rm` is a finite list of existing absolute paths;
  * `process.cwd()` is an explicit `cwd` argument;
  * the HTTP layer of `download` is an explicit `NetOutcome` value
    (early request error / response with a content type and a body
    streaming outcome), mirroring the `got` stream event flow;
  * the unbounded `while (fs.existsSync …)` collision loop is modelled
    with explicit fuel (`uniqLoop`); the termination theorems show the
    chosen fuel is always sufficient.
-/

set_option linter.unusedVariables false

namespace ImgDl

/-- JavaScript strings, modelled as lists of characters. -/
abbrev Str := List Char

/-! ## Decimal numerals

The source interpolates `${num}` (decimal rendering of a number) and
parses back with `parseInt(match[1], 10)`. -/

/-- The decimal digit character for `n < 10`. -/
def digitChar (n : Nat) : Char := Char.ofNat (48 + n)

/-- Numeric value of a decimal digit character. -/
def digitVal (c : Char) : Nat := c.toNat - 48

/-- Value of a list of decimal digits, most significant first
(the semantics of `parseInt(ds, 10)` on an all-digit string). -/
def digitsVal (ds : Str) : Nat := ds.foldl (fun a c => 10 * a + digitVal c) 0

/-- Decimal rendering with structural fuel (so that the kernel can
evaluate it); `fuel > n` always suffices. -/
def decReprAux : Nat → Nat → Str
  | 0, _ => []
  | fuel + 1, n =>
    if n < 10 then [digitChar n]
    else decReprAux fuel (n / 10) ++ [digitChar (n % 10)]

/-- Decimal rendering of a natural number, as produced by JavaScript
template interpolation `${num}`. -/
def decRepr (n : Nat) : Str := decReprAux (n + 1) n

/-! ## The ` (n)` suffix regexes

`parseImageParams` uses
  `img.name.match(/ \((\d+)\)$/)`   to read an existing numeric suffix, and
  `img.name.replace(/ \(\d+\)$/, '')` to strip it.
Both regexes are anchored at the end of the string, so they are translated
by scanning the reversed character list. -/

/-- Combined translation of the two anchored regexes: if `s` ends with a
block `" (" ++ digits ++ ")"` (`digits` nonempty), return the part before
the block together with `parseInt` of the digits; otherwise `none`. -/
def splitNumSuffix (s : Str) : Option (Str × Nat) :=
  match s.reverse with
  | ')' :: rest =>
    let ds := rest.takeWhile Char.isDigit
    if ds.isEmpty then none
    else
      match rest.drop ds.length with
      | '(' :: ' ' :: r => some (r.reverse, digitsVal ds.reverse)
      | _ => none
  | _ => none

/-- `img.name.replace(/ \(\d+\)$/, '')`. -/
def stripNumSuffix (s : Str) : Str :=
  match splitNumSuffix s with
  | some (b, _) => b
  | none => s

/-- `img.name.match(/ \((\d+)\)$/)`, returning `parseInt(match[1], 10)`. -/
def suffixNum (s : Str) : Option Nat := (splitNumSuffix s).map (·.2)

/-- `base` followed by the rendered suffix `" (" ++ n ++ ")"`. -/
def cand (base : Str) (n : Nat) : Str :=
  base ++ (' ' :: '(' :: (decRepr n ++ [')']))

/-- One iteration step of the collision loop's name update:
`num = match ? parseInt(match[1]) + 1 : 1` followed by
`img.name = img.name.replace(/ \(\d+\)$/, '') + ` (${num})``. -/
def nextName (name : Str) : Str :=
  let num : Nat :=
    match suffixNum name with
    | some k => k + 1
    | none => 1
  cand (stripNumSuffix name) num

/-! ## Paths and the collision-avoidance loop

`parseImageParams` probes the filesystem with
`fs.existsSync(path.join(img.directory, `${img.name}.${img.extension}`))`.
The filesystem is modelled as the finite list of absolute paths of the
files existing at resolution time.  `path.join` of an already-normalized
absolute directory and a sanitized `name.ext` component concatenates them
with a single separator, which is how it is modelled here. -/

/-- `path.join(dir, file)` for a normalized absolute `dir` and a single
relative component `file`. -/
def joinPath (dir file : Str) : Str := dir ++ '/' :: file

/-- The file name `${name}.${ext}`. -/
def fullFile (name ext : Str) : Str := name ++ '.' :: ext

/-- `fs.existsSync(path.join(dir, `${name}.${ext}`))` against the modelled
filesystem `files`. -/
def occupied (files : List Str) (dir ext name : Str) : Bool :=
  decide (joinPath dir (fullFile name ext) ∈ files)

/-- The collision loop of `parseImageParams`
(`while (fs.existsSync(path.join(img.directory, …))) { … }`),
with explicit fuel.  Each iteration reads any existing ` (n)` suffix,
strips it, and appends the suffix with the next number. -/
def uniqLoop (files : List Str) (dir ext : Str) : Nat → Str → Str
  | 0, name => name
  | fuel + 1, name =>
    if occupied files dir ext name then uniqLoop files dir ext fuel (nextName name)
    else name

/-! ## JavaScript string primitives and Node `path` helpers

These model the host-language / standard-library functions the source
calls (`String.prototype.toLowerCase`, `trim`, `replace('.', '')`,
`path.extname`, `path.basename`, `path.resolve`), restricted to the ASCII
fragment the program manipulates. -/

/-- `s.toLowerCase()` (ASCII fragment). -/
def jsToLower (s : Str) : Str := s.map Char.toLower

/-- JS whitespace recognized by `String.prototype.trim` (ASCII fragment). -/
def jsSpace (c : Char) : Bool :=
  c = ' ' ∨ c = '\t' ∨ c = '\n' ∨ c = '\r' ∨ c.toNat = 11 ∨ c.toNat = 12

/-- `s.trim()`. -/
def jsTrim (s : Str) : Str :=
  ((s.dropWhile jsSpace).reverse.dropWhile jsSpace).reverse

/-- `s.replace(c, '')` for a single-character pattern: removes the first
occurrence of `c`, if any. -/
def removeFirstChar (c : Char) : Str → Str
  | [] => []
  | x :: xs => if x = c then xs else x :: removeFirstChar c xs

/-- The last portion of a POSIX path: the part after the final `/`,
ignoring trailing separators (as Node's `path.basename`/`path.extname`
do). -/
def lastSegment (p : Str) : Str :=
  let q := (p.reverse.dropWhile (· = '/')).reverse
  (q.reverse.takeWhile (· ≠ '/')).reverse

/-- Node `path.extname` (POSIX): the substring of the last portion of the
path from its final `.` to the end; empty when the last portion has no `.`
or its only `.` is the leading character. -/
def extnameOf (p : Str) : Str :=
  let base := lastSegment p
  let afterRev := base.reverse.takeWhile (· ≠ '.')
  if afterRev.length = base.length then []
  else if afterRev.length + 1 = base.length then []
  else '.' :: afterRev.reverse

/-- Node `path.basename(p, suffix)`: the last portion of `p`, with
`suffix` removed when it is a proper trailing part of it. -/
def basenameDrop (p suffix : Str) : Str :=
  let base := lastSegment p
  if suffix.isSuffixOf base ∧ base ≠ suffix then
    base.take (base.length - suffix.length)
  else base

/-- Normalization of already-split POSIX path segments: drop empty and `.`
segments, let `..` remove the previous segment. -/
def normSegs (segs : List Str) : List Str :=
  segs.foldl
    (fun acc s =>
      if s = [] ∨ s = ['.'] then acc
      else if s = ['.', '.'] then acc.dropLast
      else acc ++ [s])
    []

/-- Node `path.resolve(cwd, p)` (POSIX, `cwd` absolute): absolute,
normalized form of `p`, resolved against `cwd` when `p` is relative. -/
def resolvePath (cwd p : Str) : Str :=
  let full := if p.head? = some '/' then p else cwd ++ '/' :: p
  '/' :: List.intercalate ['/'] (normSegs (full.splitOn '/'))

/-! ## The `sanitize-filename` library

`parseImageParams` validates `options.name` with
`sanitize(img.name) !== img.name` where `sanitize` is the npm package
`sanitize-filename` (an external dependency).  Modelled from that
library's contract: it deletes the characters matching
`/[\/\?<>\\:\*\|"]/` and `/[\x00-\x1f\x80-\x9f]/`, replaces a name
consisting only of dots or a Windows-reserved device name by the empty
string, strips trailing dots and spaces, and truncates to 255 units. -/

def illegalChar (c : Char) : Bool :=
  ['/', '?', '<', '>', '\\', ':', '*', '|', '"'].contains c

def controlChar (c : Char) : Bool :=
  c.toNat ≤ 31 ∨ (128 ≤ c.toNat ∧ c.toNat ≤ 159)

def winReservedNames : List Str :=
  ["con".data, "prn".data, "aux".data, "nul".data,
   "com0".data, "com1".data, "com2".data, "com3".data, "com4".data,
   "com5".data, "com6".data, "com7".data, "com8".data, "com9".data,
   "lpt0".data, "lpt1".data, "lpt2".data, "lpt3".data, "lpt4".data,
   "lpt5".data, "lpt6".data, "lpt7".data, "lpt8".data, "lpt9".data]

/-- `/^(con|prn|aux|nul|com[0-9]|lpt[0-9])(\..*)?$/i`. -/
def isWinReserved (s : Str) : Bool :=
  let l := jsToLower s
  winReservedNames.any (fun w => l = w ∨ (w ++ ['.']).isPrefixOf l)

def sanitizeModel (s : Str) : Str :=
  let s1 := s.filter (fun c => ¬ (illegalChar c ∨ controlChar c))
  let s2 := if ¬ s1.isEmpty ∧ s1.all (· = '.') then [] else s1
  let s3 := if isWinReserved s2 then [] else s2
  let s4 := (s3.reverse.dropWhile (fun c => c = '.' ∨ c = ' ')).reverse
  s4.take 255

/-! ## Data model and constants -/

/-- The parts of a WHATWG `URL` object the resolver reads.  `new URL(url)`
parsing itself is host-library behavior; the embedding works with URLs
that parsed successfully. -/
structure Url where
  protocol : Str
  pathname : Str
deriving DecidableEq

/-- `ImageOptions` of `src/downloader.ts`; an absent field is `none`. -/
structure ImageOptions where
  directory : Option Str
  name : Option Str
  extension : Option Str
deriving DecidableEq

/-- The JavaScript error values thrown/rejected by the core:
`ArgumentError`, `DirectoryError` (both defined in `src/errors/`) and
plain `Error` (network, content-type and I/O failures). -/
inductive JsError where
  | argumentError (msg : Str)
  | directoryError (msg : Str)
  | error (msg : Str)
deriving DecidableEq

/-- The `Image` record of `src/index.ts`. -/
structure Image where
  url : Url
  name : Str
  extension : Str
  directory : Str
  originalName : Option Str
  originalExtension : Option Str
  path : Str
deriving DecidableEq

/-- Modelled from the spec (the repository's `src/constanta.js` is not in
the sources): default name `'image'`. -/
def DEFAULT_NAME : Str := "image".data

/-- Modelled from the spec (the repository's `src/constanta.js` is not in
the sources): default extension `'jpg'`. -/
def DEFAULT_EXTENSION : Str := "jpg".data

/-- Modelled from the spec (the repository's `src/constanta.js` is not in
the sources): the supported image-extension set — "a fixed set including
at least jpg/jpeg, png, webp, gif, svg, and other common raster formats";
the repository's tests additionally accept `heic` here and reject `pdf`,
`exe`, `txt`, `zip`. -/
def imageExtensions : List Str :=
  ["apng".data, "avif".data, "gif".data, "jpg".data, "jpeg".data,
   "jfif".data, "pjpeg".data, "pjp".data, "png".data, "svg".data,
   "webp".data, "bmp".data, "ico".data, "cur".data, "tif".data,
   "tiff".data, "heic".data]

/-- Modelled from the spec: the set `new Set([...Object.keys(sharp.format),
'jpg'])` of output formats of the external `sharp` codec library; the
repository's tests accept png/jpg/jpeg/webp/gif/svg and reject
txt/mp4/unknown/vnd/tga/exif/heic. -/
def sharpExtensions : List Str :=
  ["avif".data, "dz".data, "fits".data, "gif".data, "heif".data,
   "input".data, "jp2".data, "jpeg".data, "jpg".data, "jxl".data,
   "magick".data, "openslide".data, "pdf".data, "png".data, "ppm".data,
   "rad".data, "raw".data, "svg".data, "tiff".data, "tile".data,
   "v".data, "webp".data]

/-- JavaScript `x || d` for a string-or-undefined `x`: `d` when `x` is
absent or empty. -/
def jsOr (o : Option Str) (d : Str) : Str :=
  match o with
  | some s => if s.isEmpty then d else s
  | none => d

/-- JavaScript truthiness of a string-or-undefined value. -/
def truthy (o : Option Str) : Bool :=
  match o with
  | some s => ¬ s.isEmpty
  | none => false

/-- Lines 227–230 of `src/downloader.ts`:
`path.extname(validUrl.pathname).replace('.', '').toLowerCase()`. -/
def originalExtOf (pathname : Str) : Str :=
  jsToLower (removeFirstChar '.' (extnameOf pathname))

/-! ## The parameter resolver `parseImageParams` -/

/-- `parseImageParams(url, options)` of `src/downloader.ts`, with
`process.cwd()` and the filesystem made explicit.  A thrown
`ArgumentError` is an `Except.error`.  The `new URL(url)` step is
represented by taking the already-parsed `url : Url`. -/
def parseImageParams (url : Url) (options : ImageOptions) (cwd : Str)
    (files : List Str) : Except JsError Image :=
  if ¬ (url.protocol = "http:".data ∨ url.protocol = "https:".data) then
    .error (.argumentError "URL protocol must be http or https".data)
  else
    let originalExt := originalExtOf url.pathname
    if originalExt ≠ [] ∧ originalExt ∉ imageExtensions then
      .error (.argumentError "The URL is not a valid image URL".data)
    else
      let directory := resolvePath cwd (jsOr options.directory ['.'])
      let originalName : Option Str :=
        if originalExt.isEmpty then none
        else some (basenameDrop url.pathname ('.' :: originalExt))
      let originalExtension : Option Str :=
        if originalExt.isEmpty then none else some originalExt
      let name0 := jsOr options.name []
      if sanitizeModel name0 ≠ name0 then
        .error (.argumentError "Invalid `name` value".data)
      else
        let name1 :=
          if (jsTrim name0).isEmpty then jsOr originalName DEFAULT_NAME else name0
        if truthy options.extension ∧
            jsToLower (options.extension.getD []) ∉ sharpExtensions then
          .error (.argumentError "Unsupported image extension".data)
        else
          let extension :=
            if truthy options.extension then jsToLower (options.extension.getD [])
            else jsOr originalExtension DEFAULT_EXTENSION
          let finalName := uniqLoop files directory extension (files.length + 2) name1
          .ok ⟨url, finalName, extension, directory, originalName,
               originalExtension, joinPath directory (fullFile finalName extension)⟩

/-- The resolved name of a resolver outcome, when it succeeded. -/
def parsedName (r : Except JsError Image) : Option Str :=
  match r with
  | .ok i => some i.name
  | .error _ => none

instance {ε α : Type} [DecidableEq ε] [DecidableEq α] : DecidableEq (Except ε α) :=
  fun a b =>
    match a, b with
    | .ok x, .ok y =>
      if h : x = y then isTrue (by rw [h]) else isFalse (by simp [h])
    | .error x, .error y =>
      if h : x = y then isTrue (by rw [h]) else isFalse (by simp [h])
    | .ok _, .error _ => isFalse (by simp)
    | .error _, .ok _ => isFalse (by simp)

/-! ## The single-item downloader `download`

`download(img, options)` of `src/downloader.ts`:
  1. `fs.promises.access(img.directory)`, on failure `fs.promises.mkdir`
     (recursive); a `mkdir` failure throws `DirectoryError`;
  2. an explicit `R_OK | W_OK` access check; failure throws
     `DirectoryError`;
  3. `got.stream(img.url, …)` and `fs.createWriteStream(img.path)`
     (creating/truncating the file at `img.path`);
  4. on a stream `error` event before a response, the `onError` handler
     runs `fs.promises.rm(img.path, { force: true })` and rejects;
  5. on `response`: when `content-type` is absent or does not start with
     `image/`, the stream is destroyed with
     `new Error('The response is not an image.')`, which fires `onError`
     (rm + reject); otherwise the body is piped (optionally through a
     sharp transform) into the write stream; a pipeline failure fires
     `onError` (rm + reject), success resolves with `img`.

The directory-check results and the network events are explicit inputs;
the filesystem is the list of existing paths, threaded through. -/

/-- Results of the directory checks made by `download`, with the host
error messages of the failing operations. -/
structure DirEnv where
  dirExists : Bool
  mkdirOk : Bool
  accessOk : Bool
  mkdirMsg : Str
  accessMsg : Str
deriving DecidableEq

/-- Outcome of streaming the response body into the write stream. -/
inductive BodyOutcome where
  | ok
  | ioError (msg : Str)
deriving DecidableEq

/-- Events delivered by the `got` fetch stream: an `error` event before
any response (unreachable host, non-2xx status after retries, timeout,
abort), or a `response` event with a `content-type` header followed by a
body-streaming outcome. -/
inductive NetOutcome where
  | earlyError (msg : Str)
  | response (contentType : Option Str) (body : BodyOutcome)
deriving DecidableEq

/-- `res.headers['content-type']?.startsWith('image/')` (optional
chaining: an absent header is not an image). -/
def isImageContentType (ct : Option Str) : Bool :=
  match ct with
  | some s => "image/".data.isPrefixOf s
  | none => false

/-- `fs.createWriteStream(p)`: the file at `p` now exists (created or
truncated). -/
def fsCreate (p : Str) (fs : List Str) : List Str :=
  if p ∈ fs then fs else p :: fs

/-- `fs.promises.rm(p, { force: true })`. -/
def fsRemove (p : Str) (fs : List Str) : List Str :=
  fs.filter (fun q => ¬ q = p)

/-- `download(img, options)` of `src/downloader.ts`: the settled promise
value together with the final filesystem. -/
def download (img : Image) (env : DirEnv) (net : NetOutcome) (fs : List Str) :
    Except JsError Image × List Str :=
  if ¬ env.dirExists ∧ ¬ env.mkdirOk then
    (.error (.directoryError env.mkdirMsg), fs)
  else if ¬ env.accessOk then
    (.error (.directoryError env.accessMsg), fs)
  else
    let fs1 := fsCreate img.path fs
    match net with
    | .earlyError msg => (.error (.error msg), fsRemove img.path fs1)
    | .response ct body =>
      if ¬ isImageContentType ct then
        (.error (.error "The response is not an image.".data),
         fsRemove img.path fs1)
      else
        match body with
        | .ok => (.ok img, fs1)
        | .ioError msg => (.error (.error msg), fsRemove img.path fs1)

/-! ## The batch entry point `imgdl`

`imgdl(url[], options)` of `src/index.ts`, for an array argument:
synchronously (in `url.forEach`) each URL is resolved with
`parseImageParams` and made unique within the batch via the `countNames`
map; each resolved target is then downloaded under the queue, a rejection
being caught and reported through `options.onError(error, url)` (the task
yields `undefined`), a fulfilled download being reported through
`options.onSuccess(image)` and collected; after `queue.onIdle()` the
batch promise resolves with the collected images.

Because `url.forEach` runs synchronously before any queued task reaches
its first `await`, every `parseImageParams` call probes the pre-batch
filesystem; the per-item download outcomes are explicit inputs. -/

/-- `countNames.get(k)` for the batch's `Map<string, number>`. -/
def mapGet (m : List (Str × Nat)) (k : Str) : Option Nat :=
  match m.find? (fun e => decide (e.1 = k)) with
  | some e => some e.2
  | none => none

/-- `countNames.set(k, v)`. -/
def mapSet (m : List (Str × Nat)) (k : Str) (v : Nat) : List (Str × Nat) :=
  (k, v) :: m.filter (fun e => ¬ e.1 = k)

/-- Lines 111–121 of `src/index.ts`: look up
`nameKey = `${img.name}.${img.extension}``; under JavaScript truthiness
(`if (count)`) a positive count renames the target to
``${img.name} (${count})`` and recomputes its path with
`path.resolve(img.directory, …)` — `img.directory` is already absolute,
so this is `joinPath`; finally `countNames.set(nameKey, (count || 0) + 1)`. -/
def batchUniquify (img : Image) (m : List (Str × Nat)) :
    Image × List (Str × Nat) :=
  let nameKey := fullFile img.name img.extension
  let count := mapGet m nameKey
  let img' :=
    match count with
    | some c =>
      if c ≠ 0 then
        ⟨img.url, cand img.name c, img.extension, img.directory,
         img.originalName, img.originalExtension,
         joinPath img.directory (fullFile (cand img.name c) img.extension)⟩
      else img
    | none => img
  (img', mapSet m nameKey ((count.getD 0) + 1))

/-- The resolution phase of `imgdl` over the URL array: parse, then
uniquify against the `countNames` map, item by item.  A thrown
`ArgumentError` propagates out of the promise executor and rejects the
batch. -/
def resolveBatchAux (options : ImageOptions) (cwd : Str) (files : List Str) :
    List Url → List (Str × Nat) → Except JsError (List Image)
  | [], _ => .ok []
  | u :: us, m =>
    match parseImageParams u options cwd files with
    | .error e => .error e
    | .ok img =>
      let p := batchUniquify img m
      match resolveBatchAux options cwd files us p.2 with
      | .error e => .error e
      | .ok rest => .ok (p.1 :: rest)

/-- The resolution phase of `imgdl`, starting from the empty
`countNames` map. -/
def resolveBatch (urls : List Url) (options : ImageOptions) (cwd : Str)
    (files : List Str) : Except JsError (List Image) :=
  resolveBatchAux options cwd files urls []

/-- The observable outcome of a batch call: the `onSuccess` and `onError`
callback invocations and the settled batch promise. -/
structure BatchRun where
  onSuccessCalls : List Image
  onErrorCalls : List (JsError × Url)
  promise : Except JsError (List Image)
deriving DecidableEq

/-- The download phase of `imgdl`: each task awaits `download`; a
rejection is caught (`error instanceof Error`), reported through
`options.onError(error, u)` and the task yields `undefined`; fulfilled
tasks are reported through `options.onSuccess` and collected; after
`queue.onIdle()` the promise resolves with the collected images.  Each
item is the target paired with its URL and its download outcome (`none`
for success, `some e` for a rejection with `e`). -/
def runDownloads : List ((Url × Image) × Option JsError) → BatchRun
  | [] => ⟨[], [], .ok []⟩
  | ((u, img), outcome) :: rest =>
    let r := runDownloads rest
    match outcome with
    | none => ⟨img :: r.onSuccessCalls, r.onErrorCalls, r.promise.map (img :: ·)⟩
    | some e => ⟨r.onSuccessCalls, (e, u) :: r.onErrorCalls, r.promise⟩

/-- `imgdl(urls, options)` of `src/index.ts` for an array argument. -/
def imgdlBatch (urls : List Url) (options : ImageOptions) (cwd : Str)
    (files : List Str) (outcomes : List (Option JsError)) : BatchRun :=
  match resolveBatch urls options cwd files with
  | .error e => ⟨[], [], .error e⟩
  | .ok targets => runDownloads ((urls.zip targets).zip outcomes)

/-! ## The CLI runner's error dispatch

In `src/cli.ts`, `runner` wraps the `imgdl` batch call in a promise and
passes an `onError` callback that distinguishes error classes: an
`ArgumentError` or `DirectoryError` rejects the wrapping promise
(`return rejects(error)`), while any other error increments the failure
counter and appends a line to `error.log`.  A `rejects` call settles the
wrapping promise, but nothing aborts the queue inside `imgdl`
(`abortController.abort()` is only called on SIGINT), so the remaining
queued items are still attempted; their callbacks still run, though later
`rejects`/`resolve` calls cannot change the already-settled promise. -/

/-- Error classes the runner's `onError` treats as fatal. -/
def fatalError : JsError → Bool
  | .argumentError _ => true
  | .directoryError _ => true
  | .error _ => false

/-- The message carried by an error value. -/
def msgOf : JsError → Str
  | .argumentError m => m
  | .directoryError m => m
  | .error m => m

/-- The observable outcome of `runner`: how many items the queue
attempted, the failure counter, the `error.log` lines
(URL and error message), and the settled wrapping promise. -/
structure RunnerOutcome where
  attempted : Nat
  errorCount : Nat
  logged : List (Url × Str)
  settled : Except JsError Unit
deriving DecidableEq

/-- The runner's processing of the batch items, in admission order; each
item carries its download outcome (`none` for success).  Every item is
attempted regardless of earlier rejections (the queue is never
cancelled); the promise keeps the first settling outcome. -/
def runnerModel : List (Url × Option JsError) → RunnerOutcome
  | [] => ⟨0, 0, [], .ok ()⟩
  | (u, o) :: rest =>
    let r := runnerModel rest
    match o with
    | none => ⟨r.attempted + 1, r.errorCount, r.logged, r.settled⟩
    | some e =>
      if fatalError e then
        ⟨r.attempted + 1, r.errorCount, r.logged, .error e⟩
      else
        ⟨r.attempted + 1, r.errorCount + 1, (u, msgOf e) :: r.logged, r.settled⟩

/-- The first fatal (ArgumentError/DirectoryError) failure among the
items, in admission order. -/
def firstFatal : List (Url × Option JsError) → Option JsError
  | [] => none
  | (_, o) :: rest =>
    match o with
    | some e => if fatalError e then some e else firstFatal rest
    | none => firstFatal rest

/-! ## Derived views of the batch resolution (used to state its specification) -/

/-- The in-batch collision key `${img.name}.${img.extension}` of a
resolved target. -/
def keyOf (img : Image) : Str := fullFile img.name img.extension

/-- The renaming applied to the `c`-th (0-based) in-batch occurrence of a
key: the first occurrence is unchanged, later ones get ` (c)` appended
and the path recomputed. -/
def rename (img : Image) (c : Nat) : Image :=
  if c = 0 then img
  else
    ⟨img.url, cand img.name c, img.extension, img.directory,
     img.originalName, img.originalExtension,
     joinPath img.directory (fullFile (cand img.name c) img.extension)⟩

/-- Number of targets in `l` with in-batch key `k`. -/
def cntKey (k : Str) (l : List Image) : Nat :=
  l.countP (fun i => decide (keyOf i = k))

/-- Parsing every URL of the batch (no `countNames` interaction). -/
def parseAll (options : ImageOptions) (cwd : Str) (files : List Str) :
    List Url → Except JsError (List Image)
  | [] => .ok []
  | u :: us =>
    match parseImageParams u options cwd files with
    | .error e => .error e
    | .ok img =>
      match parseAll options cwd files us with
      | .error e => .error e
      | .ok rest => .ok (img :: rest)

/-- The `countNames` uniquification pass alone. -/
def uniquifyAll : List Image → List (Str × Nat) → List Image
  | [], _ => []
  | img :: rest, m =>
    let p := batchUniquify img m
    p.1 :: uniquifyAll rest p.2

/-! ## Example inputs used by the witness theorems -/

/-- A placeholder target (for `Option.getD`). -/
def dfltImage : Image := ⟨⟨[], []⟩, [], [], [], none, none, []⟩

/-- The target resolved for `https://example.com/image.jpg` against a
directory already holding `image.jpg`. -/
def imgW1 : Image :=
  (parseImageParams ⟨"https:".data, "/image.jpg".data⟩ ⟨none, none, none⟩
    "/d".data ["/d/image.jpg".data]).toOption.getD dfltImage

/-- The target resolved with the explicit extension option `'PNG'`. -/
def imgW10 : Image :=
  (parseImageParams ⟨"https:".data, "/image.jpg".data⟩ ⟨none, none, some "PNG".data⟩
    "/d".data []).toOption.getD dfltImage

/-- The parse results of a batch containing the same URL twice. -/
def imgsW5 : List Image :=
  (parseAll ⟨none, none, none⟩ "/d".data []
    [⟨"https:".data, "/image.jpg".data⟩, ⟨"https:".data, "/image.jpg".data⟩]).toOption.getD []

/-! ## Theorems: supporting lemmas, then one theorem per claim -/

theorem decReprAux_stable :
    ∀ f1 n, n < f1 → ∀ f2, n < f2 → decReprAux f1 n = decReprAux f2 n := by
  intro f1
  induction f1 with
  | zero => intro n h; omega
  | succ f ih =>
    intro n hn f2 hn2
    obtain ⟨f2', rfl⟩ : ∃ f2', f2 = f2' + 1 := ⟨f2 - 1, by omega⟩
    rw [decReprAux, decReprAux]
    by_cases h : n < 10
    · simp [h]
    · simp only [h, if_false]
      rw [ih (n / 10) (by omega) f2' (by omega)]

theorem decRepr_eq_aux {fuel n : Nat} (h : n < fuel) :
    decRepr n = decReprAux fuel n :=
  decReprAux_stable (n + 1) n (by omega) fuel h

theorem decRepr_ne_nil (n : Nat) : decRepr n ≠ [] := by
  rw [decRepr, decReprAux]
  split <;> simp

theorem digitChar_isDigit {n : Nat} (h : n < 10) : (digitChar n).isDigit := by
  interval_cases n <;> decide

theorem decRepr_all_digits (n : Nat) : ∀ c ∈ decRepr n, c.isDigit = true := by
  induction n using Nat.strong_induction_on with
  | _ n ih =>
    rw [decRepr, decReprAux]
    split
    next h =>
      intro c hc
      simp at hc
      subst hc
      exact digitChar_isDigit h
    next h =>
      intro c hc
      rw [← decRepr_eq_aux (by omega : n / 10 < n)] at hc
      simp at hc
      rcases hc with hc | hc
      · exact ih (n / 10) (Nat.div_lt_self (by omega) (by norm_num)) c hc
      · subst hc
        exact digitChar_isDigit (Nat.mod_lt _ (by norm_num))

theorem digitVal_digitChar {n : Nat} (h : n < 10) : digitVal (digitChar n) = n := by
  interval_cases n <;> decide

theorem digitsVal_append_singleton (ds : Str) (c : Char) :
    digitsVal (ds ++ [c]) = 10 * digitsVal ds + digitVal c := by
  simp [digitsVal, List.foldl_append]

theorem digitsVal_decRepr (n : Nat) : digitsVal (decRepr n) = n := by
  induction n using Nat.strong_induction_on with
  | _ n ih =>
    rw [decRepr, decReprAux]
    split
    next h =>
      simp [digitsVal, digitVal_digitChar h]
    next h =>
      rw [← decRepr_eq_aux (by omega : n / 10 < n), digitsVal_append_singleton,
        ih (n / 10) (Nat.div_lt_self (by omega) (by norm_num)),
        digitVal_digitChar (Nat.mod_lt _ (by norm_num))]
      omega

theorem decRepr_injective {n m : Nat} (h : decRepr n = decRepr m) : n = m := by
  have := digitsVal_decRepr n
  rw [h, digitsVal_decRepr] at this
  omega

theorem takeWhile_all_append {p : Char → Bool} {ds : Str} (x : Char) (rest : Str)
    (hds : ∀ c ∈ ds, p c = true) (hx : p x = false) :
    (ds ++ x :: rest).takeWhile p = ds := by
  induction ds with
  | nil => simp [List.takeWhile, hx]
  | cons d ds ih =>
    simp only [List.cons_append, List.takeWhile]
    rw [hds d (by simp)]
    simp only [List.cons.injEq, true_and]
    exact ih (fun c hc => hds c (by simp [hc]))

theorem splitNumSuffix_cand (b : Str) (n : Nat) :
    splitNumSuffix (cand b n) = some (b, n) := by
  have hrev : (cand b n).reverse =
      ')' :: ((decRepr n).reverse ++ '(' :: ' ' :: b.reverse) := by
    simp [cand]
  have htake : ((decRepr n).reverse ++ '(' :: ' ' :: b.reverse).takeWhile Char.isDigit
      = (decRepr n).reverse := by
    apply takeWhile_all_append
    · intro c hc
      exact decRepr_all_digits n c (List.mem_reverse.mp hc)
    · decide

  have hnonempty : ((decRepr n).reverse.isEmpty) = false := by
    have := decRepr_ne_nil n
    cases h : decRepr n with
    | nil => exact absurd h this
    | cons x xs => simp [h]
  rw [splitNumSuffix, hrev]
  simp only [htake, hnonempty, Bool.false_eq_true, if_false]
  rw [List.drop_left]
  simp [digitsVal_decRepr]

theorem stripNumSuffix_cand (b : Str) (n : Nat) :
    stripNumSuffix (cand b n) = b := by
  rw [stripNumSuffix, splitNumSuffix_cand]

theorem suffixNum_cand (b : Str) (n : Nat) :
    suffixNum (cand b n) = some n := by
  rw [suffixNum, splitNumSuffix_cand, Option.map]

theorem nextName_cand (b : Str) (n : Nat) :
    nextName (cand b n) = cand b (n + 1) := by
  rw [nextName, suffixNum_cand, stripNumSuffix_cand]

theorem cand_injective_num {b : Str} {n m : Nat} (h : cand b n = cand b m) : n = m := by
  have := splitNumSuffix_cand b n
  rw [h, splitNumSuffix_cand] at this
  simpa using this.symm

theorem joinFull_cand_injective {dir ext b : Str} {n m : Nat}
    (h : joinPath dir (fullFile (cand b n) ext) = joinPath dir (fullFile (cand b m) ext)) :
    n = m := by
  have h1 : '/' :: fullFile (cand b n) ext = '/' :: fullFile (cand b m) ext :=
    List.append_cancel_left h
  have h2 : cand b n ++ '.' :: ext = cand b m ++ '.' :: ext :=
    (List.cons.inj h1).2
  exact cand_injective_num (List.append_cancel_right h2)

/-- Pigeonhole: among `files.length + 1` consecutive suffix numbers there is
at least one whose candidate file name is not present in `files`. -/
theorem exists_free_index (files : List Str) (dir ext b : Str) (n0 : Nat) :
    ∃ k ≤ files.length, occupied files dir ext (cand b (n0 + k)) = false := by
  by_contra hall
  push_neg at hall
  have hocc : ∀ k ≤ files.length,
      joinPath dir (fullFile (cand b (n0 + k)) ext) ∈ files := by
    intro k hk
    have := hall k hk
    simpa [occupied] using this
  set f : Nat → Str := fun k => joinPath dir (fullFile (cand b (n0 + k)) ext) with hf
  have hinj : Function.Injective f := by
    intro x y hxy
    have := joinFull_cand_injective hxy
    omega
  have hnodup : ((List.range (files.length + 1)).map f).Nodup :=
    (List.nodup_range _).map hinj
  have hsub : (List.range (files.length + 1)).map f ⊆ files := by
    intro x hx
    rcases List.mem_map.mp hx with ⟨k, hk, rfl⟩
    exact hocc k (by simpa using Nat.lt_succ_iff.mp (List.mem_range.mp hk))
  have hle : ((List.range (files.length + 1)).map f).length ≤ files.length :=
    (hnodup.subperm hsub).length_le
  simp at hle

/-- If some candidate with suffix number in `[n, n + fuel)` is free, the
loop started at `cand b n` ends on a free name. -/
theorem uniqLoop_cand_free (files : List Str) (dir ext b : Str) :
    ∀ fuel n, (∃ k < fuel, occupied files dir ext (cand b (n + k)) = false) →
      occupied files dir ext (uniqLoop files dir ext fuel (cand b n)) = false := by
  intro fuel
  induction fuel with
  | zero => intro n h; exact absurd h (by simp)
  | succ f ih =>
    intro n h
    rw [uniqLoop]
    cases hocc : occupied files dir ext (cand b n) with
    | false => simpa using hocc
    | true =>
      simp only [if_true]
      rw [nextName_cand]
      apply ih
      rcases h with ⟨k, hk, hkfree⟩
      cases k with
      | zero => rw [Nat.add_zero] at hkfree; rw [hocc] at hkfree; cases hkfree
      | succ k' =>
        refine ⟨k', by omega, ?_⟩
        have : n + (k' + 1) = n + 1 + k' := by omega
        rwa [this] at hkfree

/-- With fuel `files.length + 2` the collision loop always reaches a name
that is not occupied. -/
theorem uniqLoop_free (files : List Str) (dir ext name : Str) :
    occupied files dir ext
      (uniqLoop files dir ext (files.length + 2) name) = false := by
  rw [uniqLoop]
  cases hocc : occupied files dir ext name with
  | false => simpa using hocc
  | true =>
    simp only [if_true]
    have hnext : ∃ n0, nextName name = cand (stripNumSuffix name) n0 := by
      rw [nextName]
      cases suffixNum name <;> exact ⟨_, rfl⟩
    rcases hnext with ⟨n0, hn0⟩
    rw [hn0]
    apply uniqLoop_cand_free
    rcases exists_free_index files dir ext (stripNumSuffix name) n0 with ⟨k, hk, hfree⟩
    exact ⟨k, by omega, hfree⟩

/-- Fuel beyond the bound does not change the loop result (loop started at
a rendered candidate). -/
theorem uniqLoop_stable_cand (files : List Str) (dir ext b : Str) :
    ∀ f1 n, (∃ k < f1, occupied files dir ext (cand b (n + k)) = false) →
      ∀ f2, f1 ≤ f2 →
        uniqLoop files dir ext f1 (cand b n) = uniqLoop files dir ext f2 (cand b n) := by
  intro f1
  induction f1 with
  | zero => intro n h; exact absurd h (by simp)
  | succ f ih =>
    intro n h f2 hf2
    obtain ⟨f2', rfl⟩ : ∃ f2', f2 = f2' + 1 := ⟨f2 - 1, by omega⟩
    rw [uniqLoop, uniqLoop]
    cases hocc : occupied files dir ext (cand b n) with
    | false => simp
    | true =>
      simp only [if_true]
      rw [nextName_cand]
      apply ih
      · rcases h with ⟨k, hk, hkfree⟩
        cases k with
        | zero => rw [Nat.add_zero] at hkfree; rw [hocc] at hkfree; cases hkfree
        | succ k' =>
          refine ⟨k', by omega, ?_⟩
          have : n + (k' + 1) = n + 1 + k' := by omega
          rwa [this] at hkfree
      · omega

/-- Termination of the `while (fs.existsSync …))` loop: the result computed
with the canonical fuel `files.length + 2` is the loop's fixpoint — giving
the loop any more fuel returns the same name. -/
theorem uniqLoop_stable (files : List Str) (dir ext name : Str) (fuel : Nat)
    (h : files.length + 2 ≤ fuel) :
    uniqLoop files dir ext fuel name =
      uniqLoop files dir ext (files.length + 2) name := by
  obtain ⟨f', rfl⟩ : ∃ f', fuel = f' + 1 := ⟨fuel - 1, by omega⟩
  rw [uniqLoop]
  conv_rhs => rw [uniqLoop]
  cases hocc : occupied files dir ext name with
  | false => simp
  | true =>
    simp only [if_true]
    have hnext : ∃ n0, nextName name = cand (stripNumSuffix name) n0 := by
      rw [nextName]
      cases suffixNum name <;> exact ⟨_, rfl⟩
    rcases hnext with ⟨n0, hn0⟩
    rw [hn0]
    rcases exists_free_index files dir ext (stripNumSuffix name) n0 with ⟨k, hk, hfree⟩
    exact ((uniqLoop_stable_cand files dir ext (stripNumSuffix name)
      (files.length + 1) n0 ⟨k, by omega, hfree⟩ f' (by omega))).symm

theorem runDownloads_promise (items : List ((Url × Image) × Option JsError)) :
    (runDownloads items).promise = .ok (runDownloads items).onSuccessCalls := by
  induction items with
  | nil => rfl
  | cons x rest ih =>
    obtain ⟨⟨u, img⟩, outcome⟩ := x
    cases outcome with
    | none => simp [runDownloads, ih, Except.map]
    | some e => simp [runDownloads, ih]

theorem runDownloads_counts (items : List ((Url × Image) × Option JsError)) :
    (runDownloads items).onSuccessCalls.length +
      (runDownloads items).onErrorCalls.length = items.length := by
  induction items with
  | nil => rfl
  | cons x rest ih =>
    obtain ⟨⟨u, img⟩, outcome⟩ := x
    cases outcome with
    | none => simp [runDownloads]; omega
    | some e => simp [runDownloads]; omega

theorem runDownloads_errors (items : List ((Url × Image) × Option JsError)) :
    (runDownloads items).onErrorCalls =
      items.filterMap (fun x => x.2.map (fun e => (e, x.1.1))) := by
  induction items with
  | nil => rfl
  | cons x rest ih =>
    obtain ⟨⟨u, img⟩, outcome⟩ := x
    cases outcome with
    | none => simp [runDownloads, ih, List.filterMap_cons]
    | some e => simp [runDownloads, ih, List.filterMap_cons]

theorem resolveBatchAux_length (options : ImageOptions) (cwd : Str)
    (files : List Str) :
    ∀ (us : List Url) (m : List (Str × Nat)) (ts : List Image),
      resolveBatchAux options cwd files us m = .ok ts → ts.length = us.length := by
  intro us
  induction us with
  | nil => intro m ts h; cases h; rfl
  | cons u us ih =>
    intro m ts h
    rw [resolveBatchAux] at h
    cases hp : parseImageParams u options cwd files with
    | error e => rw [hp] at h; cases h
    | ok img =>
      rw [hp] at h
      simp only at h
      cases hr : resolveBatchAux options cwd files us (batchUniquify img m).2 with
      | error e => rw [hr] at h; cases h
      | ok rest =>
        rw [hr] at h
        cases h
        simp [ih _ rest hr]

/-! ### The `countNames` characterization -/

theorem batchUniquify_eq (img : Image) (m : List (Str × Nat)) :
    batchUniquify img m =
      (rename img ((mapGet m (keyOf img)).getD 0),
       mapSet m (keyOf img) ((mapGet m (keyOf img)).getD 0 + 1)) := by
  rw [batchUniquify]
  simp only [keyOf]
  cases h : mapGet m (fullFile img.name img.extension) with
  | none => simp [fullFile, h, rename]
  | some c =>
    cases c with
    | zero => simp [fullFile, h, rename]
    | succ c' => simp [fullFile, h, rename]

theorem mapGet_cons (k : Str) (v : Nat) (m : List (Str × Nat)) (q : Str) :
    mapGet ((k, v) :: m) q = if k = q then some v else mapGet m q := by
  rw [mapGet, mapGet, List.find?]
  by_cases h : k = q
  · simp [h]
  · simp [h]

theorem mapGet_filter_ne {k q : Str} (hq : ¬ q = k) (m : List (Str × Nat)) :
    mapGet (m.filter (fun e => ¬ e.1 = k)) q = mapGet m q := by
  induction m with
  | nil => rfl
  | cons e m ih =>
    obtain ⟨a, b⟩ := e
    simp only [decide_not] at ih
    by_cases ha : a = k
    · subst ha
      have haq : ¬ a = q := fun h => hq h.symm
      simp only [List.filter_cons, decide_not, decide_True, Bool.not_true,
        Bool.false_eq_true, if_false]
      rw [ih, mapGet_cons, if_neg haq]
    · simp only [List.filter_cons, ha, decide_not, decide_False, Bool.not_false,
        if_true]
      rw [mapGet_cons, mapGet_cons, ih]

theorem mapGet_mapSet (m : List (Str × Nat)) (k : Str) (v : Nat) (q : Str) :
    mapGet (mapSet m k v) q = if q = k then some v else mapGet m q := by
  rw [mapSet, mapGet_cons]
  by_cases hq : q = k
  · simp [hq]
  · rw [if_neg (fun h => hq h.symm), if_neg hq, mapGet_filter_ne hq]

theorem resolveBatchAux_eq (options : ImageOptions) (cwd : Str) (files : List Str) :
    ∀ (us : List Url) (m : List (Str × Nat)) (imgs : List Image),
      parseAll options cwd files us = .ok imgs →
      resolveBatchAux options cwd files us m = .ok (uniquifyAll imgs m) := by
  intro us
  induction us with
  | nil => intro m imgs h; cases h; rfl
  | cons u us ih =>
    intro m imgs h
    rw [parseAll] at h
    cases hp : parseImageParams u options cwd files with
    | error e => rw [hp] at h; cases h
    | ok img =>
      rw [hp] at h
      simp only at h
      cases hr : parseAll options cwd files us with
      | error e => rw [hr] at h; cases h
      | ok rest =>
        rw [hr] at h
        cases h
        rw [resolveBatchAux, hp]
        simp only [uniquifyAll]
        rw [ih _ rest hr]

theorem uniquifyAll_get (imgs : List Image) :
    ∀ (m : List (Str × Nat)) (prior : Str → Nat),
      (∀ k, mapGet m k = if prior k = 0 then none else some (prior k)) →
      ∀ (i : Nat) (hi : i < imgs.length),
        (uniquifyAll imgs m).get? i =
          some (rename (imgs.get ⟨i, hi⟩)
            (prior (keyOf (imgs.get ⟨i, hi⟩)) +
              cntKey (keyOf (imgs.get ⟨i, hi⟩)) (imgs.take i))) := by
  induction imgs with
  | nil => intro m prior hm i hi; simp at hi
  | cons img rest ih =>
    intro m prior hm i hi
    rw [uniquifyAll, batchUniquify_eq]
    cases i with
    | zero =>
      simp only [List.get?, List.get, List.take, cntKey, List.countP_nil,
        Nat.add_zero]
      have : (mapGet m (keyOf img)).getD 0 = prior (keyOf img) := by
        rw [hm (keyOf img)]
        by_cases h0 : prior (keyOf img) = 0 <;> simp [h0]
      rw [this]
    | succ i' =>
      simp only [List.get?]
      have hi' : i' < rest.length := by simpa using hi
      have hmapset : ∀ k,
          mapGet (mapSet m (keyOf img) ((mapGet m (keyOf img)).getD 0 + 1)) k =
            if (fun q => if q = keyOf img then prior q + 1 else prior q) k = 0
            then none
            else some ((fun q => if q = keyOf img then prior q + 1 else prior q) k) := by
        intro k
        rw [mapGet_mapSet]
        by_cases hk : k = keyOf img
        · subst hk
          have : (mapGet m (keyOf img)).getD 0 = prior (keyOf img) := by
            rw [hm (keyOf img)]
            by_cases h0 : prior (keyOf img) = 0 <;> simp [h0]
          simp [this]
        · simp [hk, hm k]
      have := ih (mapSet m (keyOf img) ((mapGet m (keyOf img)).getD 0 + 1))
        (fun q => if q = keyOf img then prior q + 1 else prior q) hmapset i' hi'
      rw [this]
      congr 2
      have htake : (img :: rest).take (i' + 1) = img :: rest.take i' := rfl
      rw [htake]
      have hcnt : ∀ k, cntKey k (img :: rest.take i') =
          (if keyOf img = k then 1 else 0) + cntKey k (rest.take i') := by
        intro k
        rw [cntKey, List.countP_cons]
        by_cases h : keyOf img = k
        · simp [h, cntKey]
          omega
        · simp [h, cntKey]
      have hel : (img :: rest).get ⟨i' + 1, hi⟩ = rest.get ⟨i', hi'⟩ := rfl
      rw [hel, hcnt]
      by_cases hk : keyOf (rest.get ⟨i', hi'⟩) = keyOf img
      · rw [hk]
        simp
        omega
      · rw [if_neg hk, if_neg (by exact fun h => hk h.symm)]
        omega

/-! ### Runner lemmas -/

theorem runnerModel_attempted (items : List (Url × Option JsError)) :
    (runnerModel items).attempted = items.length := by
  induction items with
  | nil => rfl
  | cons x rest ih =>
    obtain ⟨u, o⟩ := x
    cases o with
    | none => simp [runnerModel, ih]
    | some e =>
      by_cases hf : fatalError e <;> simp [runnerModel, hf, ih]

theorem runnerModel_settled (items : List (Url × Option JsError)) :
    (runnerModel items).settled =
      match firstFatal items with
      | some e => .error e
      | none => .ok () := by
  induction items with
  | nil => rfl
  | cons x rest ih =>
    obtain ⟨u, o⟩ := x
    cases o with
    | none => simp [runnerModel, firstFatal, ih]
    | some e =>
      by_cases hf : fatalError e <;> simp [runnerModel, firstFatal, hf, ih]

theorem runnerModel_errorCount (items : List (Url × Option JsError)) :
    (runnerModel items).errorCount =
      items.countP (fun x =>
        match x.2 with
        | some e => ¬ fatalError e
        | none => false) := by
  induction items with
  | nil => rfl
  | cons x rest ih =>
    obtain ⟨u, o⟩ := x
    cases o with
    | none => simp [runnerModel, List.countP_cons, ih]
    | some e =>
      by_cases hf : fatalError e <;>
        simp [runnerModel, List.countP_cons, hf, ih]

/-! ## Generic helper lemmas for the claim theorems -/

/-- The name computed by the collision loop (with its canonical fuel) is
never the name of an existing file. -/
theorem uniqLoop_result_not_mem (files : List Str) (dir ext name : Str) :
    joinPath dir (fullFile (uniqLoop files dir ext (files.length + 2) name) ext) ∉ files := by
  have h := uniqLoop_free files dir ext name
  rw [occupied, decide_eq_false_iff_not] at h
  exact h

theorem suffix_joinPath_fullFile (dir name ext : Str) :
    ('.' :: ext) <:+ joinPath dir (fullFile name ext) := by
  refine ⟨dir ++ '/' :: name, ?_⟩
  simp [joinPath, fullFile]

theorem not_mem_fsRemove (p : Str) (fs : List Str) : p ∉ fsRemove p fs := by
  rw [fsRemove]
  intro hmem
  rcases List.mem_filter.mp hmem with ⟨-, hp⟩
  simp at hp

/-! ## The claim theorems -/

/-- C9: for every input and every finite set of pre-existing files, the
collision-avoidance loop of `parseImageParams` terminates: the result is
reached within `files.length + 2` iterations and giving the loop any more
fuel returns the same name, so the resolver is a total function; moreover
each iteration strips the existing ` (n)` suffix and moves to the next
number, so the suffix numbers of the candidate names strictly increase. -/
theorem claim_c9_loop_terminates :
    (∀ (files : List Str) (dir ext name : Str) (fuel : Nat),
        files.length + 2 ≤ fuel →
        uniqLoop files dir ext fuel name =
          uniqLoop files dir ext (files.length + 2) name)
    ∧ (∀ name : Str,
        suffixNum (nextName name) = some ((suffixNum name).getD 0 + 1)) := by
  constructor
  · exact uniqLoop_stable
  · intro name
    rw [nextName]
    cases h : suffixNum name with
    | none => simp [suffixNum_cand]
    | some k => simp [suffixNum_cand]

/-- C9 witness: the fuel-stability statement applied at a concrete input. -/
theorem claim_c9_loop_terminates_witness :
    uniqLoop ["/d/image.jpg".data] "/d".data "jpg".data 10 "image".data =
      uniqLoop ["/d/image.jpg".data] "/d".data "jpg".data 3 "image".data :=
  claim_c9_loop_terminates.1 ["/d/image.jpg".data] "/d".data "jpg".data
    "image".data 10 (by decide)

/-- C1: the resolver's returned name never collides with an existing file
(`directory/name.extension` is free at resolution time); with `image.jpg`
present the resolved name is `image (1)`, with `image (1).jpg` also
present it is `image (2)`; a prior ` (n)` suffix is stripped before the
incremented suffix is appended; and files whose extension differs never
trigger suffixing. -/
theorem claim_c1_collision_avoidance :
    (∀ (url : Url) (options : ImageOptions) (cwd : Str) (files : List Str)
        (img : Image),
        parseImageParams url options cwd files = .ok img →
        img.path = joinPath img.directory (fullFile img.name img.extension)
        ∧ img.path ∉ files)
    ∧ parsedName (parseImageParams ⟨"https:".data, "/image.jpg".data⟩
        ⟨none, none, none⟩ "/d".data ["/d/image.jpg".data]) =
        some "image (1)".data
    ∧ parsedName (parseImageParams ⟨"https:".data, "/image.jpg".data⟩
        ⟨none, none, none⟩ "/d".data
        ["/d/image.jpg".data, "/d/image (1).jpg".data]) = some "image (2)".data
    ∧ (∀ (b : Str) (k : Nat), nextName (cand b k) = cand b (k + 1))
    ∧ (∀ (files : List Str) (dir name ext : Str) (fuel : Nat),
        (∀ f ∈ files, ¬ ('.' :: ext) <:+ f) →
        uniqLoop files dir ext fuel name = name) := by
  refine ⟨?_, by decide, by decide, nextName_cand, ?_⟩
  · intro url options cwd files img h
    simp only [parseImageParams] at h
    split_ifs at h
    all_goals
      rw [Except.ok.injEq] at h
      subst h
      exact ⟨rfl, uniqLoop_result_not_mem _ _ _ _⟩
  · intro files dir name ext fuel hext
    cases fuel with
    | zero => rfl
    | succ f =>
      rw [uniqLoop]
      have hocc : occupied files dir ext name = false := by
        rw [occupied, decide_eq_false_iff_not]
        intro hmem
        exact hext _ hmem ⟨dir ++ '/' :: name, by simp [joinPath, fullFile]⟩
      rw [hocc]
      simp

/-- C1 witness: the two hypothesis-bearing parts of C1 applied at
concrete inputs. -/
theorem claim_c1_collision_avoidance_witness :
    imgW1.path ∉ ["/d/image.jpg".data]
    ∧ uniqLoop ["/d/a.png".data] "/d".data "jpg".data 5 "image".data =
        "image".data :=
  ⟨(claim_c1_collision_avoidance.1 ⟨"https:".data, "/image.jpg".data⟩
      ⟨none, none, none⟩ "/d".data ["/d/image.jpg".data] imgW1 (by decide)).2,
   claim_c1_collision_avoidance.2.2.2.2 ["/d/a.png".data] "/d".data
      "image".data "jpg".data 5 (by decide)⟩

/-- C6: when the URL path carries a file-like suffix, the resolver throws
`ArgumentError('The URL is not a valid image URL')` exactly when the
lower-cased suffix is not in the supported image-extension set; when it is
in the set, that error is never raised and a successful resolution stores
the suffix as `originalExtension`. -/
theorem claim_c6_url_extension_validation :
    ∀ (url : Url) (options : ImageOptions) (cwd : Str) (files : List Str),
      (url.protocol = "http:".data ∨ url.protocol = "https:".data) →
      originalExtOf url.pathname ≠ [] →
      ((originalExtOf url.pathname ∉ imageExtensions →
          parseImageParams url options cwd files =
            .error (.argumentError "The URL is not a valid image URL".data))
        ∧ (originalExtOf url.pathname ∈ imageExtensions →
            parseImageParams url options cwd files ≠
              .error (.argumentError "The URL is not a valid image URL".data)
            ∧ ∀ img, parseImageParams url options cwd files = .ok img →
                img.originalExtension = some (originalExtOf url.pathname))) := by
  intro url options cwd files hp hne
  constructor
  · intro hnot
    simp only [parseImageParams]
    rw [if_neg (not_not_intro hp), if_pos ⟨hne, hnot⟩]
  · intro hmem
    have hne2 : ¬ (originalExtOf url.pathname ≠ [] ∧
        originalExtOf url.pathname ∉ imageExtensions) :=
      fun hcon => hcon.2 hmem
    constructor
    · simp only [parseImageParams]
      rw [if_neg (not_not_intro hp), if_neg hne2]
      split_ifs
      all_goals first | decide | simp
    · intro img h
      simp only [parseImageParams] at h
      rw [if_neg (not_not_intro hp), if_neg hne2] at h
      have hemp : (originalExtOf url.pathname).isEmpty = false := by
        cases hoe : originalExtOf url.pathname with
        | nil => exact absurd hoe hne
        | cons c cs => rfl
      split_ifs at h
      all_goals
        rw [Except.ok.injEq] at h
        subst h
        first
        | rfl
        | exact absurd
            (by assumption : (originalExtOf url.pathname).isEmpty = true)
            (by simp [hemp])

/-- C6 witness: the two directions applied at URLs with suffixes `txt`
(unsupported) and `png` (supported). -/
theorem claim_c6_url_extension_validation_witness :
    parseImageParams ⟨"https:".data, "/file.txt".data⟩ ⟨none, none, none⟩
      "/d".data [] =
      .error (.argumentError "The URL is not a valid image URL".data)
    ∧ parseImageParams ⟨"https:".data, "/file.png".data⟩ ⟨none, none, none⟩
        "/d".data [] ≠
        .error (.argumentError "The URL is not a valid image URL".data) :=
  ⟨(claim_c6_url_extension_validation ⟨"https:".data, "/file.txt".data⟩
      ⟨none, none, none⟩ "/d".data [] (by decide) (by decide)).1 (by decide),
   ((claim_c6_url_extension_validation ⟨"https:".data, "/file.png".data⟩
      ⟨none, none, none⟩ "/d".data [] (by decide) (by decide)).2 (by decide)).1⟩

/-- C7 counterexample: `parseImageParams` with
`directory: 'images/file.jpg'` succeeds — it does not fail with
`ArgumentError`, contrary to the claim.  (The resolver of
`src/downloader.ts` computes `path.resolve(options?.directory || '.')`
without inspecting the last path component.) -/
theorem claim_c7_counterexample :
    (parseImageParams ⟨"https:".data, "/img.jpg".data⟩
      ⟨some "images/file.jpg".data, none, none⟩ "/cwd".data []).isOk = true := by
  decide

/-- C7 amended: the resolver performs no directory-shape validation: a
`directory` whose last component carries a filename extension (e.g.
`images/file.jpg`) is accepted and used as a directory, for every working
directory and every pre-existing filesystem. -/
theorem claim_c7_directory_not_validated :
    ∀ (cwd : Str) (files : List Str),
      (parseImageParams ⟨"https:".data, "/img.jpg".data⟩
        ⟨some "images/file.jpg".data, none, none⟩ cwd files).isOk = true := by
  intro cwd files
  simp only [parseImageParams]
  rw [if_neg (by decide), if_neg (by decide), if_neg (by decide),
    if_neg (by decide)]
  rfl

/-- C10: a supplied extension that passes validation is stored
lower-cased in the resolved target, and the target's path ends in the
lower-cased `.extension`; the caller's original letter-case is not
preserved. -/
theorem claim_c10_extension_lowercased :
    ∀ (url : Url) (options : ImageOptions) (cwd : Str) (files : List Str)
      (e : Str) (img : Image),
      options.extension = some e → e ≠ [] →
      parseImageParams url options cwd files = .ok img →
      img.extension = jsToLower e ∧ ('.' :: jsToLower e) <:+ img.path := by
  intro url options cwd files e img hopt he h
  have htr : truthy options.extension = true := by
    rw [hopt, truthy]
    cases e with
    | nil => exact absurd rfl he
    | cons c cs => simp
  simp only [parseImageParams] at h
  split_ifs at h
  all_goals
    rw [Except.ok.injEq] at h
    subst h
    first
    | exact absurd htr (by assumption)
    | (constructor
       · simp [hopt]
       · simp only [hopt, Option.getD_some]
         exact suffix_joinPath_fullFile _ _ _)

/-- C10 witness: extension option `'PNG'` yields a target whose stored
extension is `'png'` (the case is not preserved) and whose path ends in
`.png`. -/
theorem claim_c10_extension_lowercased_witness :
    (imgW10.extension = jsToLower "PNG".data
      ∧ ('.' :: jsToLower "PNG".data) <:+ imgW10.path)
    ∧ jsToLower "PNG".data = "png".data ∧ "PNG".data ≠ "png".data :=
  ⟨claim_c10_extension_lowercased ⟨"https:".data, "/image.jpg".data⟩
      ⟨none, none, some "PNG".data⟩ "/d".data [] "PNG".data imgW10
      (by decide) (by decide) (by decide),
   by decide, by decide⟩

/-- C3: when the response's `Content-Type` header is absent or does not
start with `image/`, `download` rejects with an error whose message is
`'The response is not an image.'` and afterwards no file exists at the
target's path. -/
theorem claim_c3_non_image_response :
    ∀ (img : Image) (env : DirEnv) (ct : Option Str) (body : BodyOutcome)
      (fs : List Str),
      (env.dirExists ∨ env.mkdirOk) → env.accessOk →
      isImageContentType ct = false →
      (download img env (.response ct body) fs).1 =
        .error (.error "The response is not an image.".data)
      ∧ img.path ∉ (download img env (.response ct body) fs).2 := by
  intro img env ct body fs hdir hacc hct
  rw [download, if_neg (by rcases hdir with h | h <;> simp [h]),
    if_neg (by simp [hacc])]
  simp only [hct, Bool.false_eq_true, not_false_eq_true, if_true]
  exact ⟨trivial, not_mem_fsRemove _ _⟩

/-- C3 witness: a `text/html` response at a concrete target. -/
theorem claim_c3_non_image_response_witness :
    (download dfltImage ⟨true, true, true, [], []⟩
      (.response (some "text/html".data) .ok) []).1 =
      .error (.error "The response is not an image.".data)
    ∧ dfltImage.path ∉ (download dfltImage ⟨true, true, true, [], []⟩
        (.response (some "text/html".data) .ok) []).2 :=
  claim_c3_non_image_response dfltImage ⟨true, true, true, [], []⟩
    (some "text/html".data) .ok [] (by simp) (by simp) (by decide)

/-- C4: when streaming the body to the target path fails, the partially
written file is removed and the error is propagated: the settled result
carries the stream error and no file exists at the target's path. -/
theorem claim_c4_partial_file_cleanup :
    ∀ (img : Image) (env : DirEnv) (ct : Option Str) (msg : Str)
      (fs : List Str),
      (env.dirExists ∨ env.mkdirOk) → env.accessOk →
      isImageContentType ct = true →
      (download img env (.response ct (.ioError msg)) fs).1 =
        .error (.error msg)
      ∧ img.path ∉ (download img env (.response ct (.ioError msg)) fs).2 := by
  intro img env ct msg fs hdir hacc hct
  rw [download, if_neg (by rcases hdir with h | h <;> simp [h]),
    if_neg (by simp [hacc])]
  simp only [hct, not_true_eq_false, if_false]
  exact ⟨trivial, not_mem_fsRemove _ _⟩

/-- C4 witness: a disk-write failure (`ENOSPC`) at a concrete target. -/
theorem claim_c4_partial_file_cleanup_witness :
    (download dfltImage ⟨true, true, true, [], []⟩
      (.response (some "image/jpeg".data) (.ioError "ENOSPC".data)) []).1 =
      .error (.error "ENOSPC".data)
    ∧ dfltImage.path ∉ (download dfltImage ⟨true, true, true, [], []⟩
        (.response (some "image/jpeg".data) (.ioError "ENOSPC".data)) []).2 :=
  claim_c4_partial_file_cleanup dfltImage ⟨true, true, true, [], []⟩
    (some "image/jpeg".data) "ENOSPC".data [] (by simp) (by simp) (by decide)

/-- C2: in a batch whose URLs all resolve, each failing item invokes
`onError(error, url)`, the remaining items are still attempted (every
item is reported exactly once, so successes and failures add up to the
batch size), and the batch promise resolves (with the collected images)
instead of rejecting. -/
theorem claim_c2_batch_partial_failure :
    ∀ (urls : List Url) (options : ImageOptions) (cwd : Str)
      (files : List Str) (targets : List Image)
      (outcomes : List (Option JsError)),
      resolveBatch urls options cwd files = .ok targets →
      outcomes.length = urls.length →
      (imgdlBatch urls options cwd files outcomes).promise =
        .ok (imgdlBatch urls options cwd files outcomes).onSuccessCalls
      ∧ (imgdlBatch urls options cwd files outcomes).onSuccessCalls.length +
          (imgdlBatch urls options cwd files outcomes).onErrorCalls.length =
          urls.length
      ∧ (imgdlBatch urls options cwd files outcomes).onErrorCalls =
          ((urls.zip targets).zip outcomes).filterMap
            (fun x => x.2.map (fun e => (e, x.1.1))) := by
  intro urls options cwd files targets outcomes hres hlen
  have htlen : targets.length = urls.length :=
    resolveBatchAux_length options cwd files urls [] targets hres
  have hzlen : ((urls.zip targets).zip outcomes).length = urls.length := by
    simp [List.length_zip, htlen, hlen]
  rw [imgdlBatch, hres]
  exact ⟨runDownloads_promise _,
    by rw [runDownloads_counts _, hzlen],
    runDownloads_errors _⟩

/-- C2 witness: a batch of three URLs whose second download fails (e.g.
with a 404 response error) yields exactly two `onSuccess` calls, one
`onError` call, and a resolved promise. -/
theorem claim_c2_batch_partial_failure_witness :
    (imgdlBatch
        [⟨"https:".data, "/a.jpg".data⟩, ⟨"https:".data, "/b.jpg".data⟩,
         ⟨"https:".data, "/c.jpg".data⟩]
        ⟨none, none, none⟩ "/d".data []
        [none, some (.error "Response code 404 (Not Found)".data), none]).promise =
      .ok (imgdlBatch
        [⟨"https:".data, "/a.jpg".data⟩, ⟨"https:".data, "/b.jpg".data⟩,
         ⟨"https:".data, "/c.jpg".data⟩]
        ⟨none, none, none⟩ "/d".data []
        [none, some (.error "Response code 404 (Not Found)".data), none]).onSuccessCalls
    ∧ (imgdlBatch
        [⟨"https:".data, "/a.jpg".data⟩, ⟨"https:".data, "/b.jpg".data⟩,
         ⟨"https:".data, "/c.jpg".data⟩]
        ⟨none, none, none⟩ "/d".data []
        [none, some (.error "Response code 404 (Not Found)".data), none]).onSuccessCalls.length = 2
    ∧ (imgdlBatch
        [⟨"https:".data, "/a.jpg".data⟩, ⟨"https:".data, "/b.jpg".data⟩,
         ⟨"https:".data, "/c.jpg".data⟩]
        ⟨none, none, none⟩ "/d".data []
        [none, some (.error "Response code 404 (Not Found)".data), none]).onErrorCalls.length = 1 :=
  ⟨(claim_c2_batch_partial_failure
      [⟨"https:".data, "/a.jpg".data⟩, ⟨"https:".data, "/b.jpg".data⟩,
       ⟨"https:".data, "/c.jpg".data⟩]
      ⟨none, none, none⟩ "/d".data []
      ((resolveBatch
        [⟨"https:".data, "/a.jpg".data⟩, ⟨"https:".data, "/b.jpg".data⟩,
         ⟨"https:".data, "/c.jpg".data⟩]
        ⟨none, none, none⟩ "/d".data []).toOption.getD [])
      [none, some (.error "Response code 404 (Not Found)".data), none]
      (by decide) (by decide)).1,
   by decide, by decide⟩

/-- C5: within one batch, in-batch name collisions are resolved by a
counter keyed on the resolved name and extension (all items of a batch
share one directory, so the key determines directory, name and
extension): the `i`-th item is renamed with suffix ` (c)` where `c` is
the number of earlier batch items with the same key, the first occurrence
staying unsuffixed; resolving the same URL twice with no pre-existing
files yields two distinct targets, the second named with suffix ` (1)`.
The `parseImageParams` calls all probe the pre-batch filesystem `files`,
independent of the in-batch counter. -/
theorem claim_c5_batch_name_collisions :
    (∀ (urls : List Url) (options : ImageOptions) (cwd : Str)
        (files : List Str) (imgs : List Image),
        parseAll options cwd files urls = .ok imgs →
        resolveBatch urls options cwd files = .ok (uniquifyAll imgs [])
        ∧ (∀ (i : Nat) (hi : i < imgs.length),
            (uniquifyAll imgs []).get? i =
              some (rename (imgs.get ⟨i, hi⟩)
                (cntKey (keyOf (imgs.get ⟨i, hi⟩)) (imgs.take i)))))
    ∧ (resolveBatch
        [⟨"https:".data, "/image.jpg".data⟩, ⟨"https:".data, "/image.jpg".data⟩]
        ⟨none, none, none⟩ "/d".data []).toOption.map
          (List.map Image.name) =
        some ["image".data, "image (1)".data] := by
  constructor
  · intro urls options cwd files imgs hp
    constructor
    · exact resolveBatchAux_eq options cwd files urls [] imgs hp
    · intro i hi
      have h := uniquifyAll_get imgs [] (fun _ => 0) (fun k => rfl) i hi
      simpa using h
  · decide

/-- C5 witness: the general statement applied to the two-same-URLs batch. -/
theorem claim_c5_batch_name_collisions_witness :
    resolveBatch
      [⟨"https:".data, "/image.jpg".data⟩, ⟨"https:".data, "/image.jpg".data⟩]
      ⟨none, none, none⟩ "/d".data [] = .ok (uniquifyAll imgsW5 []) :=
  (claim_c5_batch_name_collisions.1
    [⟨"https:".data, "/image.jpg".data⟩, ⟨"https:".data, "/image.jpg".data⟩]
    ⟨none, none, none⟩ "/d".data [] imgsW5 (by decide)).1

/-- C8 counterexample: with three items whose second fails with
`DirectoryError`, the runner's wrapping promise is rejected with that
error (it is propagated, not logged), but the third item is still
attempted — the queue keeps processing, so "processing of further items
stops" fails at this input. -/
theorem claim_c8_counterexample :
    (runnerModel
      [(⟨"https:".data, "/a.jpg".data⟩, none),
       (⟨"https:".data, "/b.jpg".data⟩,
        some (.directoryError "EACCES: permission denied".data)),
       (⟨"https:".data, "/c.jpg".data⟩, none)]).settled =
      .error (.directoryError "EACCES: permission denied".data)
    ∧ (runnerModel
        [(⟨"https:".data, "/a.jpg".data⟩, none),
         (⟨"https:".data, "/b.jpg".data⟩,
          some (.directoryError "EACCES: permission denied".data)),
         (⟨"https:".data, "/c.jpg".data⟩, none)]).attempted = 3 := by
  decide

/-- C8 amended: a `DirectoryError` item failure is propagated — the
runner's wrapping promise is rejected with the first such error, and
fatal (Argument/Directory) errors are never counted or written to
`error.log` — but the scheduler does not stop: every item of the batch is
still attempted. -/
theorem claim_c8_directory_error_propagation :
    ∀ items : List (Url × Option JsError),
      (runnerModel items).settled =
        (match firstFatal items with
         | some e => .error e
         | none => .ok ())
      ∧ (runnerModel items).attempted = items.length
      ∧ (runnerModel items).errorCount =
          items.countP (fun x =>
            match x.2 with
            | some e => ¬ fatalError e
            | none => false) :=
  fun items =>
    ⟨runnerModel_settled items, runnerModel_attempted items,
     runnerModel_errorCount items⟩

end ImgDl
